import Mathlib

/- Shallow embedding of K4IniReader v1.1.0 (class K4IniReader in K4IniReader.hpp).
   A C++ std::string is modelled as a list of characters; std::unordered_map is
   modelled as an association list with unique keys whose insert replaces the
   existing binding in place (contents only; the hash layout is unobservable).
   The input file is modelled as `Option (List Str)`: `none` is a file that
   cannot be opened (`!file.is_open()`), `some lines` is the sequence of lines
   that `std::getline` yields. -/

abbrev Str : Type := List Char

abbrev Sec : Type := List (Str × Str)

abbrev Doc : Type := List (Str × Sec)

/-- `std::isspace` in the default C locale (space, tab, newline, vertical tab,
form feed, carriage return), as used by `trim`. -/
def isspaceC (c : Char) : Bool :=
  c.toNat = 32 || c.toNat = 9 || c.toNat = 10 || c.toNat = 11 || c.toNat = 12 || c.toNat = 13

/-- `std::isupper` in the default C locale, as used by the string branch of `read`. -/
def isupperC (c : Char) : Bool :=
  65 ≤ c.toNat && c.toNat ≤ 90

/-- `std::tolower` in the default C locale, as used by the string branch of `read`. -/
def tolowerC (c : Char) : Char :=
  if isupperC c then Char.ofNat (c.toNat + 32) else c

/-- Decimal digit test, as in the `std::from_chars` base-10 pattern. -/
def isdigitC (c : Char) : Bool :=
  48 ≤ c.toNat && c.toNat ≤ 57

/-- `K4IniReader::trim`: erase leading characters up to the first non-space,
then erase trailing characters after the last non-space. -/
def trim (s : Str) : Str :=
  ((s.dropWhile isspaceC).reverse.dropWhile isspaceC).reverse

/-- Index of the first character satisfying `p`, as `std::string::find_first_of`
and single-character `std::string::find` (`none` models `npos`). -/
def findIdxC (p : Char → Bool) : Str → Option Nat
  | [] => none
  | c :: tl => if p c then some 0 else (findIdxC p tl).map (· + 1)

/-- Index of the first occurrence of the pattern `pat`, as
`std::string::find(const char*)` (`none` models `npos`). -/
def findSub (pat : Str) : Str → Option Nat
  | [] => if pat = [] then some 0 else none
  | c :: tl => if pat.isPrefixOf (c :: tl) then some 0 else (findSub pat tl).map (· + 1)

/-- Index of the first character satisfying `p` at position `start` or later, as
`std::string::find(char, pos)`. -/
def findIdxFrom (p : Char → Bool) (s : Str) (start : Nat) : Option Nat :=
  (findIdxC p (s.drop start)).map (· + start)

/-- `K4IniReader::removeInlineComment`: find the first `;` or `#` (one combined
search) and the first `//` (a separate search); erase from the smaller index
found, or leave the string unchanged when neither search hits. -/
def removeInlineComment (s : Str) : Str :=
  let commaOrHashtagPos := findIdxC (fun c => c == ';' || c == '#') s
  let doubleSlashPos := findSub ['/', '/'] s
  match commaOrHashtagPos, doubleSlashPos with
  | some i, some j => s.take (min i j)
  | some i, none => s.take i
  | none, some j => s.take j
  | none, none => s

/-- The action the constructor loop body takes for one line. -/
inductive LineAction : Type
  | skip : LineAction
  | sectionHeader : Str → LineAction
  | keyValue : Str → Str → LineAction
  deriving DecidableEq

/-- The per-line analysis of the constructor loop body of `K4IniReader`:
strip the inline comment, skip empty lines, then either a section header
(first `[` with a `]` at or after it; content between, trimmed), or a
key-value line (split at the first `=`, both sides trimmed), or nothing. -/
def classify (rawLine : Str) : LineAction :=
  let line := removeInlineComment rawLine
  if line = [] then .skip
  else
    match findIdxC (fun c => c == '[') line with
    | some posBracketStart =>
      match findIdxFrom (fun c => c == ']') line posBracketStart with
      | none => .skip
      | some posBracketEnd =>
        .sectionHeader (trim ((line.drop (posBracketStart + 1)).take (posBracketEnd - posBracketStart - 1)))
    | none =>
      match findIdxC (fun c => c == '=') line with
      | some posEqualSing =>
        .keyValue (trim (line.take posEqualSing)) (trim (line.drop (posEqualSing + 1)))
      | none => .skip

/-- Association-list lookup, as `std::unordered_map::find`. -/
def lookupA {β : Type} : List (Str × β) → Str → Option β
  | [], _ => none
  | (k2, v) :: tl, k => if k2 = k then some v else lookupA tl k

/-- Association-list store, as assignment through `std::unordered_map::operator[]`:
replaces the existing binding or appends a new one. -/
def insertA {β : Type} : List (Str × β) → Str → β → List (Str × β)
  | [], k, v => [(k, v)]
  | (k2, v2) :: tl, k, v => if k2 = k then (k, v) :: tl else (k2, v2) :: insertA tl k v

/-- `std::unordered_map::reserve`: adjusts capacity only, never the contents,
so on the contents it is the identity. -/
def reserveA {β : Type} (_capacity : Nat) (m : List (Str × β)) : List (Str × β) :=
  m

/-- One iteration of the constructor loop of `K4IniReader` on the state
(current section, data). A section header sets the current section and
default-constructs its mapping via `data[currentSection].reserve(nKeys)`;
a key-value line stores through `data[currentSection][keyExtracted] = value`. -/
def processLine (nKeys : Nat) (st : Str × Doc) (rawLine : Str) : Str × Doc :=
  match classify rawLine with
  | .skip => st
  | .sectionHeader name =>
    (name, insertA st.2 name (reserveA nKeys ((lookupA st.2 name).getD [])))
  | .keyValue k v =>
    (st.1, insertA st.2 st.1 (insertA ((lookupA st.2 st.1).getD []) k v))

/-- The constructor `K4IniReader(fileName, nSections, nKeys)`: an unopenable
file leaves `data` empty; otherwise `data.reserve(nSections)` and the
line loop starting from the empty current section. -/
def K4IniReader (file : Option (List Str)) (nSections : Nat) (nKeys : Nat) : Doc :=
  match file with
  | none => []
  | some lines => (lines.foldl (processLine nKeys) ([], reserveA nSections [])).2

/-- `K4IniReader::find`: section lookup then key lookup; the boolean result and
out parameter are modelled as an `Option`. -/
def find (data : Doc) (s k : Str) : Option Str :=
  match lookupA data s with
  | none => none
  | some sec => lookupA sec k

/-- `read<bool>`: on a miss the default; on a hit, exact comparison of the raw
text against the four lowercase literals. -/
def readBool (data : Doc) (s k : Str) (defaultValue : Bool) : Bool :=
  match find data s k with
  | none => defaultValue
  | some outValue =>
    outValue == "true".data || outValue == "1".data || outValue == "on".data || outValue == "yes".data

/-- `read<char>`: on a miss the default; on a hit, the first character of the
raw text, or the default when the raw text is empty. -/
def readChar (data : Doc) (s k : Str) (defaultValue : Char) : Char :=
  match find data s k with
  | none => defaultValue
  | some outValue =>
    match outValue with
    | [] => defaultValue
    | c :: _ => c

/-- The base-10 value of a digit string, as accumulated by `std::from_chars`. -/
def digitsVal (ds : Str) : Int :=
  ds.foldl (fun a c => a * 10 + ((c.toNat : Int) - 48)) 0

/-- Core of `std::from_chars` for a base-10 integer type with representable
range `[lo, hi]`, after the optional minus sign has been consumed: take the
longest digit prefix; no digits is `std::errc::invalid_argument` and an
out-of-range value is `std::errc::result_out_of_range`, both leaving the
output object untouched (modelled as `none`). -/
def fcCore (lo hi : Int) (neg : Bool) (s : Str) : Option Int :=
  let ds := s.takeWhile isdigitC
  if ds = [] then none
  else
    let v : Int := if neg then -(digitsVal ds) else digitsVal ds
    if lo ≤ v ∧ v ≤ hi then some v else none

/-- `std::from_chars` for a signed base-10 integer type with representable
range `[lo, hi]`: an optional leading minus sign, then `fcCore`. -/
def fromCharsInt (lo hi : Int) (s : Str) : Option Int :=
  match s with
  | [] => none
  | c :: tl => if c = '-' then fcCore lo hi true tl else fcCore lo hi false (c :: tl)

/-- `read<T>` for a signed integer type `T` with representable range `[lo, hi]`:
`outParsedValue` is initialized to `defaultValue` and `from_chars` leaves it
untouched unless the conversion fully succeeds. -/
def readInt (lo hi : Int) (data : Doc) (s k : Str) (defaultValue : Int) : Int :=
  match find data s k with
  | none => defaultValue
  | some outValue =>
    match fromCharsInt lo hi outValue with
    | some n => n
    | none => defaultValue

/-- The `std::any_of` uppercase scan in the string branch of `read`. -/
def hasUpper (s : Str) : Bool :=
  s.any isupperC

/-- `read<std::string>`: on a hit, lowercase the raw text only when
`toLowerString` is set and the scan found an uppercase character. -/
def readString (data : Doc) (s k : Str) (defaultValue : Str) (toLowerString : Bool) : Str :=
  match find data s k with
  | none => defaultValue
  | some outValue =>
    if toLowerString then
      if hasUpper outValue then outValue.map tolowerC else outValue
    else outValue

/-- The text accessor as the spec words it: on a hit, lowercase the raw value
unconditionally whenever fold-case is requested (no uppercase pre-check). -/
def readStringSpec (data : Doc) (s k : Str) (defaultValue : Str) (toLowerString : Bool) : Str :=
  match find data s k with
  | none => defaultValue
  | some outValue =>
    if toLowerString then outValue.map tolowerC else outValue

/-- The assignment events a line sequence produces when processing starts in
section `cur`: each key-value line emits (current section, key, value), and a
section header only switches the current section. -/
def lineEvents (cur : Str) : List Str → List (Str × Str × Str)
  | [] => []
  | l :: tl =>
    match classify l with
    | .skip => lineEvents cur tl
    | .sectionHeader name => lineEvents name tl
    | .keyValue k v => (cur, k, v) :: lineEvents cur tl

/-- The value of the last assignment event for section `s` and key `k`. -/
def lastAssign : List (Str × Str × Str) → Str → Str → Option Str
  | [], _, _ => none
  | (s2, k2, v) :: tl, s, k =>
    match lastAssign tl s k with
    | some w => some w
    | none => if s2 = s ∧ k2 = k then some v else none

/-- The smaller of two optional indices, absent entries ignored (the spec's
"smallest index among all matches found"). -/
def minOpt : Option Nat → Option Nat → Option Nat
  | some i, some j => some (min i j)
  | some i, none => some i
  | none, some j => some j
  | none, none => none

/-- Comment stripping as the spec words it: truncate at the smallest index
among the first `;`-or-`#` occurrence and the first `//` occurrence; when
neither marker family occurs, leave the line unchanged. -/
def commentTruncSpec (s : Str) : Str :=
  match minOpt (findIdxC (fun c => c == ';' || c == '#') s) (findSub ['/', '/'] s) with
  | some i => s.take i
  | none => s

/-- Left-biased choice on optional values. -/
def valOr (a b : Option Str) : Option Str :=
  match a with
  | some w => some w
  | none => b

theorem lookupA_insertA_self {β : Type} (m : List (Str × β)) (k : Str) (v : β) :
    lookupA (insertA m k v) k = some v := by
  induction m with
  | nil => simp [insertA, lookupA]
  | cons hd tl ih =>
    obtain ⟨k2, v2⟩ := hd
    by_cases h : k2 = k
    · simp [insertA, h, lookupA]
    · simp [insertA, h, lookupA, ih]

theorem lookupA_insertA_ne {β : Type} (m : List (Str × β)) (k : Str) (v : β) (k2 : Str)
    (h : k ≠ k2) : lookupA (insertA m k v) k2 = lookupA m k2 := by
  induction m with
  | nil => simp [insertA, lookupA, h]
  | cons hd tl ih =>
    obtain ⟨k3, v3⟩ := hd
    by_cases h3 : k3 = k
    · subst h3
      simp [insertA, lookupA, h]
    · simp [insertA, h3, lookupA, ih]

theorem find_section_insert (data : Doc) (n s k : Str) :
    find (insertA data n ((lookupA data n).getD [])) s k = find data s k := by
  by_cases hs : n = s
  · subst hs
    unfold find
    rw [lookupA_insertA_self]
    cases hd : lookupA data n with
    | none => simp [hd, lookupA]
    | some sec => simp [hd]
  · unfold find
    rw [lookupA_insertA_ne _ _ _ _ hs]

theorem find_kv_insert (data : Doc) (c k v s k2 : Str) :
    find (insertA data c (insertA ((lookupA data c).getD []) k v)) s k2
      = if c = s ∧ k = k2 then some v else find data s k2 := by
  by_cases hs : c = s
  · subst hs
    by_cases hk : k = k2
    · subst hk
      simp [find, lookupA_insertA_self]
    · simp only [find, lookupA_insertA_self, lookupA_insertA_ne _ _ _ _ hk, hk, and_false,
        if_false]
      cases hd : lookupA data c with
      | none => simp [lookupA]
      | some sec => simp
  · simp only [find, lookupA_insertA_ne _ _ _ _ hs, hs, false_and, if_false]

theorem valOr_none (a : Option Str) : valOr a none = a := by
  cases a <;> rfl

theorem parse_find (nK : Nat) (lines : List Str) : ∀ (cur : Str) (data : Doc) (s k : Str),
    find ((lines.foldl (processLine nK) (cur, data)).2) s k
      = valOr (lastAssign (lineEvents cur lines) s k) (find data s k) := by
  induction lines with
  | nil => intro cur data s k; simp [lineEvents, lastAssign, valOr]
  | cons l tl ih =>
    intro cur data s k
    cases hc : classify l with
    | skip =>
      simp only [List.foldl_cons, processLine, hc, lineEvents]
      exact ih cur data s k
    | sectionHeader n =>
      simp only [List.foldl_cons, processLine, hc, lineEvents, reserveA]
      rw [ih n _ s k, find_section_insert]
    | keyValue k1 v1 =>
      simp only [List.foldl_cons, processLine, hc, lineEvents]
      rw [ih cur _ s k, find_kv_insert]
      cases hl : lastAssign (lineEvents cur tl) s k with
      | some w => simp [lastAssign, hl, valOr]
      | none =>
        simp only [lastAssign, hl, valOr]
        by_cases hck : cur = s ∧ k1 = k
        · simp [hck]
        · simp [hck]

/-- Claim C5: for every input, the raw value finally stored under a section
name and key equals the value of the last key-value line (in source order)
that assigns that key while that section is current; in particular a repeated
key overwrites the prior value and a reopened section header accumulates keys
into the same mapping, as in the `[A]`, `k=1`, `[A]`, `j=2` example. -/
theorem C5_last_assignment_wins :
    (∀ (lines : List Str) (nS nK : Nat) (s k : Str),
      find (K4IniReader (some lines) nS nK) s k = lastAssign (lineEvents [] lines) s k)
    ∧ find (K4IniReader (some ["[A]".data, "k=1".data, "[A]".data, "j=2".data]) 32 8)
        "A".data "k".data = some "1".data
    ∧ find (K4IniReader (some ["[A]".data, "k=1".data, "[A]".data, "j=2".data]) 32 8)
        "A".data "j".data = some "2".data
    ∧ find (K4IniReader (some ["k=1".data, "k=2".data]) 32 8) [] "k".data = some "2".data := by
  refine ⟨?_, by decide, by decide, by decide⟩
  intro lines nS nK s k
  show find ((lines.foldl (processLine nK) ([], reserveA nS [])).2) s k = _
  rw [parse_find]
  show valOr _ (find [] s k) = _
  rw [show find ([] : Doc) s k = none from rfl, valOr_none]

/-- Claim C4: an unopenable input source and an empty input source both yield
a Document with zero sections and zero keys; construction is a total function
and signals no error. -/
theorem C4_empty_source (nS nK : Nat) :
    K4IniReader none nS nK = [] ∧ K4IniReader (some []) nS nK = [] :=
  ⟨rfl, rfl⟩

/-- Claim C6: comment stripping truncates the line at the smallest index among
the first occurrence of `;` or `#` (one combined search) and the first
occurrence of `//` (an independent search), and leaves the line unchanged when
neither marker family occurs; concrete lines exercise each branch. -/
theorem C6_comment_truncation :
    (∀ s : Str, removeInlineComment s = commentTruncSpec s)
    ∧ removeInlineComment "a;b//c".data = "a".data
    ∧ removeInlineComment "a//b;c".data = "a".data
    ∧ removeInlineComment "k = 5 // five".data = "k = 5 ".data
    ∧ removeInlineComment "no marker".data = "no marker".data := by
  refine ⟨?_, by decide, by decide, by decide, by decide⟩
  intro s
  unfold removeInlineComment commentTruncSpec
  cases h1 : findIdxC (fun c => c == ';' || c == '#') s <;>
    cases h2 : findSub ['/', '/'] s <;>
      simp [minOpt]

theorem map_tolowerC_of_not_hasUpper (v : Str) (h : hasUpper v = false) :
    v.map tolowerC = v := by
  induction v with
  | nil => rfl
  | cons c tl ih =>
    simp only [hasUpper, List.any_cons, Bool.or_eq_false_iff] at h
    simp [tolowerC, h.1, ih (by simpa [hasUpper] using h.2)]

/-- Claim C8: for text-typed reads, the has-uppercase pre-check is an
unobservable optimization: with fold-case requested the result equals the
unconditional lowercasing of the raw value, and without it the raw value is
returned unchanged, as the `HELLO` example shows. -/
theorem C8_fold_case_refinement :
    (∀ (data : Doc) (s k : Str) (d : Str) (toLowerString : Bool),
      readString data s k d toLowerString = readStringSpec data s k d toLowerString)
    ∧ readString (K4IniReader (some ["k=HELLO".data]) 32 8) [] "k".data [] true = "hello".data
    ∧ readString (K4IniReader (some ["k=HELLO".data]) 32 8) [] "k".data [] false
        = "HELLO".data := by
  refine ⟨?_, by decide, by decide⟩
  intro data s k d toLowerString
  unfold readString readStringSpec
  cases find data s k with
  | none => rfl
  | some v =>
    cases toLowerString with
    | false => rfl
    | true =>
      simp only [if_true]
      cases hu : hasUpper v with
      | true => rfl
      | false => simp [map_tolowerC_of_not_hasUpper v hu]

/-- Claim C1: the typed accessor is a total function (it can signal no error),
and on every lookup miss — the section absent from the Document, or the key
absent within that section — it returns the caller-supplied default unchanged,
for every supported result type. -/
theorem C1_miss_returns_default (data : Doc) (s k : Str)
    (h : lookupA data s = none ∨ ∃ sec, lookupA data s = some sec ∧ lookupA sec k = none) :
    (∀ db : Bool, readBool data s k db = db)
    ∧ (∀ dc : Char, readChar data s k dc = dc)
    ∧ (∀ lo hi di : Int, readInt lo hi data s k di = di)
    ∧ (∀ (ds : Str) (toLowerString : Bool), readString data s k ds toLowerString = ds) := by
  have hf : find data s k = none := by
    rcases h with h | ⟨sec, h1, h2⟩
    · simp [find, h]
    · simp [find, h1, h2]
  exact ⟨fun db => by simp [readBool, hf], fun dc => by simp [readChar, hf],
    fun lo hi di => by simp [readInt, hf], fun ds f => by simp [readString, hf]⟩

theorem C1_miss_returns_default_witness :
    (lookupA (K4IniReader (some ["[A]".data, "k=1".data]) 32 8) "B".data = none
      ∨ ∃ sec, lookupA (K4IniReader (some ["[A]".data, "k=1".data]) 32 8) "B".data = some sec
          ∧ lookupA sec "k".data = none)
    ∧ ((∀ db : Bool, readBool (K4IniReader (some ["[A]".data, "k=1".data]) 32 8)
          "B".data "k".data db = db)
      ∧ (∀ dc : Char, readChar (K4IniReader (some ["[A]".data, "k=1".data]) 32 8)
          "B".data "k".data dc = dc)
      ∧ (∀ lo hi di : Int, readInt lo hi (K4IniReader (some ["[A]".data, "k=1".data]) 32 8)
          "B".data "k".data di = di)
      ∧ (∀ (ds : Str) (toLowerString : Bool),
          readString (K4IniReader (some ["[A]".data, "k=1".data]) 32 8)
            "B".data "k".data ds toLowerString = ds)) :=
  ⟨Or.inl (by decide), C1_miss_returns_default _ _ _ (Or.inl (by decide))⟩

/-- Claim C3: a boolean read that hits a stored raw value yields true exactly
when the raw text equals one of the lowercase literals `true`, `1`, `on`,
`yes`; any other raw text — `True` included — yields false rather than the
caller's default. -/
theorem C3_bool_literals (data : Doc) (s k v : Str) (h : find data s k = some v) :
    (∀ d : Bool, readBool data s k d = true
        ↔ (v = "true".data ∨ v = "1".data ∨ v = "on".data ∨ v = "yes".data))
    ∧ (∀ d : Bool, v ≠ "true".data → v ≠ "1".data → v ≠ "on".data → v ≠ "yes".data →
        readBool data s k d = false)
    ∧ readBool (K4IniReader (some ["k=True".data]) 32 8) [] "k".data true = false := by
  refine ⟨?_, ?_, by decide⟩
  · intro d
    simp [readBool, h, or_assoc]
  · intro d h1 h2 h3 h4
    simp [readBool, h, h1, h2, h3, h4]

theorem C3_bool_literals_witness :
    (find (K4IniReader (some ["k=on".data]) 32 8) [] "k".data = some "on".data)
    ∧ ((∀ d : Bool, readBool (K4IniReader (some ["k=on".data]) 32 8) [] "k".data d = true
        ↔ ("on".data = "true".data ∨ "on".data = "1".data ∨ "on".data = "on".data
            ∨ "on".data = "yes".data))
      ∧ (∀ d : Bool, "on".data ≠ "true".data → "on".data ≠ "1".data → "on".data ≠ "on".data →
          "on".data ≠ "yes".data →
          readBool (K4IniReader (some ["k=on".data]) 32 8) [] "k".data d = false)
      ∧ readBool (K4IniReader (some ["k=True".data]) 32 8) [] "k".data true = false) :=
  ⟨by decide, C3_bool_literals _ _ _ _ (by decide)⟩

theorem takeWhile_append_of_run (p : Char → Bool) (ds rest : Str)
    (h1 : ∀ c ∈ ds, p c = true) (h2 : ∀ c, rest.head? = some c → p c = false) :
    (ds ++ rest).takeWhile p = ds := by
  induction ds with
  | nil =>
    cases rest with
    | nil => rfl
    | cons c tl => simp [List.takeWhile_cons, h2 c rfl]
  | cons c tl ih =>
    simp only [List.cons_append, List.takeWhile_cons, h1 c (List.mem_cons_self c tl), if_true]
    rw [ih (fun c2 hc2 => h1 c2 (List.mem_cons_of_mem c hc2))]

theorem fcCore_token (lo hi : Int) (neg : Bool) (ds rest : Str) (h0 : ds ≠ [])
    (h1 : ∀ c ∈ ds, isdigitC c = true) (h2 : ∀ c, rest.head? = some c → isdigitC c = false) :
    fcCore lo hi neg (ds ++ rest)
      = (if lo ≤ (if neg then -(digitsVal ds) else digitsVal ds)
            ∧ (if neg then -(digitsVal ds) else digitsVal ds) ≤ hi
         then some (if neg then -(digitsVal ds) else digitsVal ds) else none) := by
  unfold fcCore
  rw [takeWhile_append_of_run _ _ _ h1 h2]
  simp [h0]

theorem isdigitC_ne_dash (c : Char) (h : isdigitC c = true) : c ≠ '-' := by
  intro e
  subst e
  exact absurd h (by decide)

theorem fromCharsInt_not_dash (lo hi : Int) (c : Char) (tl : Str) (h : c ≠ '-') :
    fromCharsInt lo hi (c :: tl) = fcCore lo hi false (c :: tl) := by
  simp [fromCharsInt, h]

theorem fromCharsInt_dash (lo hi : Int) (tl : Str) :
    fromCharsInt lo hi ('-' :: tl) = fcCore lo hi true tl := by
  simp [fromCharsInt]

/-- Claim C10: an integer read whose stored raw value begins with a numeric
token that is out of range of the requested integer type returns the default
unchanged (the parse output is initialized to the default and `from_chars`
leaves it untouched on failure), never a truncated, wrapped, or clamped value;
`k=99999999999999999999` read as a 32-bit int with default 123 yields 123. -/
theorem C10_out_of_range_default (data : Doc) (s k : Str) (d lo hi : Int) (v : Str)
    (h : find data s k = some v) :
    ((∀ ds rest, v = ds ++ rest → ds ≠ [] → (∀ c ∈ ds, isdigitC c = true) →
        (∀ c, rest.head? = some c → isdigitC c = false) →
        ¬(lo ≤ digitsVal ds ∧ digitsVal ds ≤ hi) →
        readInt lo hi data s k d = d)
      ∧ (∀ ds rest, v = '-' :: (ds ++ rest) → ds ≠ [] → (∀ c ∈ ds, isdigitC c = true) →
        (∀ c, rest.head? = some c → isdigitC c = false) →
        ¬(lo ≤ -(digitsVal ds) ∧ -(digitsVal ds) ≤ hi) →
        readInt lo hi data s k d = d))
    ∧ readInt (-(2 ^ 31)) (2 ^ 31 - 1)
        (K4IniReader (some ["k=99999999999999999999".data]) 32 8) [] "k".data 123 = 123 := by
  refine ⟨⟨?_, ?_⟩, by decide⟩
  · intro ds rest hv h0 h1 h2 hout
    subst hv
    obtain ⟨c, tl, rfl⟩ : ∃ c tl, ds = c :: tl := by
      cases ds with
      | nil => exact absurd rfl h0
      | cons c tl => exact ⟨c, tl, rfl⟩
    simp only [readInt, h]
    rw [List.cons_append,
      fromCharsInt_not_dash _ _ _ _ (isdigitC_ne_dash c (h1 c (List.mem_cons_self c tl))),
      show (c :: (tl ++ rest)) = (c :: tl) ++ rest from rfl,
      fcCore_token _ _ _ _ _ h0 h1 h2]
    simp [hout]
  · intro ds rest hv h0 h1 h2 hout
    subst hv
    simp only [readInt, h]
    rw [fromCharsInt_dash, fcCore_token _ _ _ _ _ h0 h1 h2]
    simp [hout]

theorem C10_out_of_range_default_witness :
    (find (K4IniReader (some ["k=99999999999999999999".data]) 32 8) [] "k".data
      = some "99999999999999999999".data)
    ∧ readInt (-(2 ^ 31)) (2 ^ 31 - 1)
        (K4IniReader (some ["k=99999999999999999999".data]) 32 8) [] "k".data 123 = 123 :=
  ⟨by decide,
    (C10_out_of_range_default (K4IniReader (some ["k=99999999999999999999".data]) 32 8)
        [] "k".data 123 (-(2 ^ 31)) (2 ^ 31 - 1) "99999999999999999999".data (by decide)).1.1
      "99999999999999999999".data [] (by simp) (by decide) (by decide) (by decide)
      (by decide)⟩

/-- Claim C7 as stated is false on the code when "line" is read as the raw
input line: `k=v;[` contains `[` with no `]` at or after it, yet parsing does
not discard it — the comment stripper first cuts the line at `;`, and the
remainder `k=v` stores a key, so the parse differs from the one with the line
absent. -/
theorem C7_raw_line_counterexample :
    findIdxC (fun c => c == '[') "k=v;[".data = some 4
    ∧ findIdxFrom (fun c => c == ']') "k=v;[".data 4 = none
    ∧ K4IniReader (some ["k=v;[".data]) 32 8 ≠ K4IniReader (some ([] : List Str)) 32 8
    ∧ find (K4IniReader (some ["k=v;[".data]) 32 8) [] "k".data = some "v".data := by
  refine ⟨by decide, by decide, by decide, by decide⟩

/-- Claim C7 amended: for every line that, after comment stripping, contains
`[` but no `]` at or after it, parsing discards that line — the parse state is
unchanged — and all subsequent lines are parsed exactly as they would be had
the malformed line been absent. -/
theorem C7_malformed_header_discarded (l : Str) (i : Nat)
    (h1 : findIdxC (fun c => c == '[') (removeInlineComment l) = some i)
    (h2 : findIdxFrom (fun c => c == ']') (removeInlineComment l) i = none) :
    (∀ (nK : Nat) (st : Str × Doc), processLine nK st l = st)
    ∧ (∀ (nS nK : Nat) (pre post : List Str),
        K4IniReader (some (pre ++ l :: post)) nS nK
          = K4IniReader (some (pre ++ post)) nS nK) := by
  have hne : removeInlineComment l ≠ [] := by
    intro e
    rw [e] at h1
    exact absurd h1 (by simp [findIdxC])
  have hc : classify l = .skip := by
    unfold classify
    simp [hne, h1, h2]
  refine ⟨fun nK st => by simp [processLine, hc], ?_⟩
  intro nS nK pre post
  show (List.foldl (processLine nK) ([], reserveA nS []) (pre ++ l :: post)).2 = _
  rw [List.foldl_append, List.foldl_cons,
    show processLine nK (List.foldl (processLine nK) ([], reserveA nS []) pre) l
        = List.foldl (processLine nK) ([], reserveA nS []) pre from by simp [processLine, hc],
    ← List.foldl_append]
  rfl

theorem C7_malformed_header_discarded_witness :
    (findIdxC (fun c => c == '[') (removeInlineComment "[unterminated".data) = some 0
      ∧ findIdxFrom (fun c => c == ']') (removeInlineComment "[unterminated".data) 0 = none)
    ∧ K4IniReader (some (["[A]".data] ++ "[unterminated".data :: ["k=1".data])) 32 8
        = K4IniReader (some (["[A]".data] ++ ["k=1".data])) 32 8 :=
  ⟨⟨by decide, by decide⟩,
    (C7_malformed_header_discarded "[unterminated".data 0 (by decide) (by decide)).2 32 8
      ["[A]".data] ["k=1".data]⟩

theorem processLine_capacity (k1 k2 : Nat) (st : Str × Doc) (l : Str) :
    processLine k1 st l = processLine k2 st l := by
  cases hc : classify l <;> simp [processLine, hc, reserveA]

theorem foldl_processLine_capacity (lines : List Str) : ∀ (st : Str × Doc) (k1 k2 : Nat),
    lines.foldl (processLine k1) st = lines.foldl (processLine k2) st := by
  induction lines with
  | nil => intro st k1 k2; rfl
  | cons l tl ih =>
    intro st k1 k2
    simp only [List.foldl_cons]
    rw [processLine_capacity k1 k2 st l, ih]

/-- Claim C9: for every input source and every two pairs of positive capacity
hints, the two constructed Documents are equal, so every read query — of every
supported type — answers identically; the hints are pure performance tuning. -/
theorem C9_hints_unobservable (src : Option (List Str)) (n1 k1 n2 k2 : Nat)
    (_hp1 : 0 < n1) (_hp2 : 0 < k1) (_hp3 : 0 < n2) (_hp4 : 0 < k2) :
    K4IniReader src n1 k1 = K4IniReader src n2 k2
    ∧ (∀ s k, find (K4IniReader src n1 k1) s k = find (K4IniReader src n2 k2) s k)
    ∧ (∀ s k db, readBool (K4IniReader src n1 k1) s k db
        = readBool (K4IniReader src n2 k2) s k db)
    ∧ (∀ s k dc, readChar (K4IniReader src n1 k1) s k dc
        = readChar (K4IniReader src n2 k2) s k dc)
    ∧ (∀ s k lo hi di, readInt lo hi (K4IniReader src n1 k1) s k di
        = readInt lo hi (K4IniReader src n2 k2) s k di)
    ∧ (∀ s k ds f, readString (K4IniReader src n1 k1) s k ds f
        = readString (K4IniReader src n2 k2) s k ds f) := by
  have hd : K4IniReader src n1 k1 = K4IniReader src n2 k2 := by
    cases src with
    | none => rfl
    | some lines =>
      show (lines.foldl (processLine k1) ([], reserveA n1 [])).2
          = (lines.foldl (processLine k2) ([], reserveA n2 [])).2
      rw [show reserveA n1 ([] : Doc) = reserveA n2 [] from rfl,
        foldl_processLine_capacity lines _ k1 k2]
  exact ⟨hd, fun s k => by rw [hd], fun s k db => by rw [hd], fun s k dc => by rw [hd],
    fun s k lo hi di => by rw [hd], fun s k ds f => by rw [hd]⟩

theorem C9_hints_unobservable_witness :
    (0 < 1 ∧ 0 < 1 ∧ 0 < 32 ∧ 0 < 8)
    ∧ K4IniReader (some ["[A]".data, "k=1".data]) 1 1
        = K4IniReader (some ["[A]".data, "k=1".data]) 32 8 :=
  ⟨⟨by decide, by decide, by decide, by decide⟩,
    (C9_hints_unobservable (some ["[A]".data, "k=1".data]) 1 1 32 8
      (by decide) (by decide) (by decide) (by decide)).1⟩
